import Mathlib

/-!
Shallow embedding of the `wait` command of jx-pipeline (pkg/cmd/wait/wait.go):
the trigger-match predicate `containsRepositoryTrigger`, the two poll loops
`waitForRepositoryToBeSetup` (trigger phase) and `waitForWebHookToBeSetup`
(webhook phase), and the orchestrating `Run`.

Time is modelled by a `Nat`-valued clock `now : Nat → Nat` giving the
wall-clock reading at the deadline check of iteration `i`, together with the
phase deadline `endTime` computed at phase entry; Go's `time.Now().After(end)`
is the strict comparison `endTime < now i`.  The external fetches
(`triggers.LoadLighthouseConfig`, `SourceRepositories(ns).Get`) are modelled
by per-iteration oracles.  Go map lookups are modelled by their lookup
functions: `m[k]` on a `map[string][]T` yields `none` exactly when the lookup
result is `nil` (key absent or nil value stored — indistinguishable to this
code), and `map[string]*bool` lookup yields `Option Bool` (nil pointer is
`none`).  Each distinct `return` site of a Go function becomes a distinct
constructor, carrying the formatted error message the code builds there.
Loops are unrolled by fuel: `none` means the loop did not terminate within
the given number of iterations.
-/

namespace JxWait

/-- Lighthouse `InRepoConfig` section: `Enabled map[string]*bool` (the whole
map may be nil). -/
structure InRepoConfig where
  Enabled : Option (String → Option Bool)

/-- The parts of the Lighthouse `config.Config` read by this command:
`Presubmits` and `Postsubmits` are `map[string][]T` keyed by full repository
name, modelled by their lookup functions (`none` = nil lookup result). -/
structure Config where
  Presubmits : String → Option (List Unit)
  Postsubmits : String → Option (List Unit)
  inRepoConfig : InRepoConfig

/-- wait.go `containsRepositoryTrigger`: direct translation of

    if cfg.Postsubmits[fullName] != nil { return true }
    if cfg.InRepoConfig.Enabled != nil {
      f := cfg.InRepoConfig.Enabled[fullName]
      if f != nil { return *f }
    }
    return false
-/
def containsRepositoryTrigger (cfg : Config) (fullName : String) : Bool :=
  match cfg.Postsubmits fullName with
  | some _ => true
  | none =>
    match cfg.inRepoConfig.Enabled with
    | some enabled =>
      match enabled fullName with
      | some f => f
      | none => false
    | none => false

/-- Modelled from the spec: the override-map entry for a repository, the
"entry exists" view of section 4.2 (an entry exists when the enabled map is
non-nil and holds a non-nil pointer for the name). -/
def overrideEntry (cfg : Config) (fullName : String) : Option Bool :=
  match cfg.inRepoConfig.Enabled with
  | some m => m fullName
  | none => none

/-- Modelled from the spec: the three-step reference lookup of section 4.2:
(1) direct-map membership gives true; (2) else an existing override entry is
returned verbatim; (3) else false. -/
def referenceTriggerLookup (cfg : Config) (fullName : String) : Bool :=
  if (cfg.Postsubmits fullName).isSome then true
  else
    match overrideEntry cfg fullName with
    | some b => b
    | none => false

/-- Characters of `pat` occur as a prefix of `l`. -/
def chPre : List Char → List Char → Bool
  | [], _ => true
  | _ :: _, [] => false
  | a :: as, b :: bs => a == b && chPre as bs

/-- Characters of `pat` occur contiguously somewhere in `l`. -/
def chSub (pat : List Char) : List Char → Bool
  | [] => chPre pat []
  | c :: t => chPre pat (c :: t) || chSub pat t

/-- String `s` has `pat` as a contiguous substring. -/
def strContains (s pat : String) : Bool :=
  chSub pat.data s.data

/-- Model of Go `strings.HasPrefix`. -/
def hasPre (pre s : String) : Bool :=
  chPre pre.data s.data

/-- ASCII lowering of one character (the fragment of Go `strings.ToLower`
relevant to the "err"/"true" literals this code compares against). -/
def lowerChar (c : Char) : Char :=
  if 'A' ≤ c ∧ c ≤ 'Z' then Char.ofNat (c.toNat + 32) else c

/-- Model of Go `strings.ToLower`. -/
def strToLower (s : String) : String :=
  String.mk (s.data.map lowerChar)

/-- Log events emitted by the two poll loops. -/
inductive LogEvent where
  | waiting
  | foundRepo (name url : String)
  | statusChange (value : String)
  | warnFailure (msg : String)
  deriving DecidableEq, Repr

/-- Recognizer for the per-phase "waiting up to ..." info line. -/
def isWaiting : LogEvent → Bool
  | .waiting => true
  | _ => false

/-- Number of "waiting" info lines in a log trace. -/
def countWaiting (l : List LogEvent) : Nat :=
  (l.filter isWaiting).length

/-- Message of `errors.Errorf` at the deadline of either loop (the webhook
loop reuses the trigger loop's format string verbatim). -/
def timeoutMsg (name ns fullName dur : String) : String :=
  "failed to find trigger in the lighthouse configuration in ConfigMap " ++ name ++
    " in namespace " ++ ns ++ " for repository: " ++ fullName ++ " within " ++ dur

/-- Message of `errors.Wrapf(err, "failed to load lighthouse config")`. -/
def loadErrMsg (e : String) : String :=
  "failed to load lighthouse config: " ++ e

/-- Message of `errors.Wrapf(err, "failed to find SourceRepository %s in namespace %s", ...)`. -/
def srFetchErrMsg (name ns e : String) : String :=
  "failed to find SourceRepository " ++ name ++ " in namespace " ++ ns ++ ": " ++ e

/-- Environment of one run of `waitForRepositoryToBeSetup`: the per-iteration
result of `triggers.LoadLighthouseConfig`, the clock, the deadline, and the
strings used in messages. -/
structure TriggerEnv where
  fetch : Nat → Except String Config
  now : Nat → Nat
  endTime : Nat
  cmName : String
  ns : String
  fullName : String
  durStr : String

/-- Result of one iteration of the trigger loop: a `return` with the Go pair
`(bool, error)`, or fall through to the next iteration. -/
inductive TriggerStepRes where
  | done (res : Bool × Option String)
  | next
  deriving DecidableEq, Repr

/-- One iteration of the `for` loop of `waitForRepositoryToBeSetup`, given the
current `logWaiting` flag; also yields the log events of the iteration. -/
def triggerStep (env : TriggerEnv) (i : Nat) (lw : Bool) :
    TriggerStepRes × List LogEvent :=
  match env.fetch i with
  | .error e => (.done (false, some (loadErrMsg e)), [])
  | .ok cfg =>
    let flag := containsRepositoryTrigger cfg env.fullName
    if flag then (.done (flag, none), [])
    else if env.endTime < env.now i then
      (.done (false, some (timeoutMsg env.cmName env.ns env.fullName env.durStr)), [])
    else if lw then (.next, [])
    else (.next, [LogEvent.waiting])

/-- The trigger loop, unrolled by fuel, accumulating log events; `none` means
the loop ran out of fuel without returning. -/
def runTrigger (env : TriggerEnv) :
    Nat → Nat → Bool → List LogEvent → Option ((Bool × Option String) × List LogEvent)
  | 0, _, _, _ => none
  | fuel + 1, i, lw, logs =>
    match triggerStep env i lw with
    | (.done r, l) => some (r, logs ++ l)
    | (.next, l) => runTrigger env fuel (i + 1) true (logs ++ l)

/-- The fields of a `SourceRepository` read by the webhook loop: its name, its
`Spec.URL`, and its annotations map (modelled by its lookup function). -/
structure SourceRepo where
  name : String
  url : String
  anns : String → Option String

/-- Result of `jxClient.JenkinsV1().SourceRepositories(ns).Get`: the resource,
an `IsNotFound` error, or any other error. -/
inductive WebhookFetch where
  | found (sr : SourceRepo)
  | notFound
  | fetchError (msg : String)

/-- Environment of one run of `waitForWebHookToBeSetup`. -/
structure WebhookEnv where
  fetch : Nat → WebhookFetch
  now : Nat → Nat
  endTime : Nat
  srName : String
  ns : String
  fullName : String
  durStr : String

/-- Mutable locals of the webhook loop. -/
structure WebhookState where
  lastValue : String
  found : Bool
  lastFailMessage : String
  logWaiting : Bool
  deriving DecidableEq, Repr

/-- Locals as initialized before the webhook loop. -/
def initWebhookState : WebhookState :=
  { lastValue := "", found := false, lastFailMessage := "", logWaiting := false }

/-- The three `return` sites of `waitForWebHookToBeSetup`: `return nil` on a
"true" status, the wrapped fetch error, and the deadline error. -/
inductive WebhookOutcome where
  | success
  | fetchErr (msg : String)
  | timeout (msg : String)
  deriving DecidableEq, Repr

/-- Result of one webhook-loop iteration: a `return`, or fall through with
updated locals. -/
inductive WebhookStepRes where
  | done (out : WebhookOutcome)
  | next (st : WebhookState)
  deriving DecidableEq, Repr

/-- Lookup of the `webhook.jenkins-x.io` status annotation (Go map lookup
yields "" when absent). -/
def annValue (sr : SourceRepo) : String :=
  (sr.anns "webhook.jenkins-x.io").getD ""

/-- Lookup of the `webhook.jenkins-x.io/error` detail annotation. -/
def annErr (sr : SourceRepo) : String :=
  (sr.anns "webhook.jenkins-x.io/error").getD ""

/-- Outcome of processing a successfully fetched `SourceRepository` (the
`else` branch of the fetch, lines 173-201): either `return nil`, or
fall through with updated locals, plus the log events emitted. -/
inductive ProcessRes where
  | success
  | next (st : WebhookState)
  deriving DecidableEq, Repr

/-- Direct translation of the body handling a found resource:

    if !found { found = true; log found... }
    value := sr.Annotations["webhook.jenkins-x.io"]
    if value != "" {
      if value != lastValue {
        lastValue = value
        log status...
        if value == "true" { return nil }
        if strings.HasPrefix(strings.ToLower(value), "err") {
          failure := sr.Annotations["webhook.jenkins-x.io/error"]
          if failure != "" && failure != lastFailMessage {
            lastFailMessage = failure
            log warn...
          }
        }
      }
    }
-/
def processSR (sr : SourceRepo) (st : WebhookState) : ProcessRes × List LogEvent :=
  let baseLogs := if st.found then [] else [LogEvent.foundRepo sr.name sr.url]
  let st1 : WebhookState := { st with found := true }
  let value := annValue sr
  if value = "" then (.next st1, baseLogs)
  else if value = st1.lastValue then (.next st1, baseLogs)
  else
    let st2 : WebhookState := { st1 with lastValue := value }
    let logs2 := baseLogs ++ [LogEvent.statusChange value]
    if value = "true" then (.success, logs2)
    else if hasPre "err" (strToLower value) then
      let failure := annErr sr
      if failure ≠ "" ∧ failure ≠ st2.lastFailMessage then
        (.next { st2 with lastFailMessage := failure },
          logs2 ++ [LogEvent.warnFailure failure])
      else (.next st2, logs2)
    else (.next st2, logs2)

/-- Tail of each webhook-loop iteration (lines 203-211): the deadline check,
then the once-only "waiting" log. -/
def afterDeadline (env : WebhookEnv) (i : Nat) (st : WebhookState)
    (logs : List LogEvent) : WebhookStepRes × List LogEvent :=
  if env.endTime < env.now i then
    (.done (.timeout (timeoutMsg env.srName env.ns env.fullName env.durStr)), logs)
  else if st.logWaiting then (.next st, logs)
  else (.next { st with logWaiting := true }, logs ++ [LogEvent.waiting])

/-- One iteration of the `for` loop of `waitForWebHookToBeSetup`. -/
def webhookStep (env : WebhookEnv) (i : Nat) (st : WebhookState) :
    WebhookStepRes × List LogEvent :=
  match env.fetch i with
  | .fetchError e => (.done (.fetchErr (srFetchErrMsg env.srName env.ns e)), [])
  | .notFound => afterDeadline env i st []
  | .found sr =>
    match processSR sr st with
    | (.success, l) => (.done .success, l)
    | (.next st', l) => afterDeadline env i st' l

/-- The webhook loop, unrolled by fuel, accumulating log events. -/
def runWebhook (env : WebhookEnv) :
    Nat → Nat → WebhookState → List LogEvent → Option (WebhookOutcome × List LogEvent)
  | 0, _, _, _ => none
  | fuel + 1, i, st, logs =>
    match webhookStep env i st with
    | (.done out, l) => some (out, logs ++ l)
    | (.next st', l) => runWebhook env fuel (i + 1) st' (logs ++ l)

/-- The four `return` sites of `Run` after validation: each wraps with the
context string the code adds there. -/
inductive RunResult where
  | ok
  | triggerFailed (msg : String)
  | notSetup (fullName : String)
  | webhookFailed (msg : String)
  deriving DecidableEq, Repr

/-- Direct translation of `Run` (lines 110-127): the trigger phase, the
`!exists` check, then the webhook phase. -/
def runOrchestrator (tenv : TriggerEnv) (wenv : WebhookEnv) (fullName : String)
    (fuel : Nat) : Option RunResult :=
  match runTrigger tenv fuel 0 false [] with
  | none => none
  | some ((_, some e), _) =>
    some (.triggerFailed ("failed to wait for repository to be setup in lighthouse: " ++ e))
  | some ((b, none), _) =>
    if b then
      match runWebhook wenv fuel 0 initWebhookState [] with
      | none => none
      | some (.success, _) => some .ok
      | some (.fetchErr e, _) =>
        some (.webhookFailed ("failed to wait for repository to have its webhook enabled: " ++ e))
      | some (.timeout e, _) =>
        some (.webhookFailed ("failed to wait for repository to have its webhook enabled: " ++ e))
    else some (.notSetup fullName)

/-! Concrete instances used by witnesses and counterexamples. -/

/-- A config whose postsubmit map has an entry for "myorg/myrepo". -/
def cfgMatch : Config :=
  { Presubmits := fun _ => none
    Postsubmits := fun n => if n = "myorg/myrepo" then some [] else none
    inRepoConfig := { Enabled := none } }

/-- A config with no trigger information at all. -/
def cfgNone : Config :=
  { Presubmits := fun _ => none
    Postsubmits := fun _ => none
    inRepoConfig := { Enabled := none } }

/-- A config whose presubmit map alone has an entry for "myorg/myrepo". -/
def cfgPresubmitOnly : Config :=
  { Presubmits := fun n => if n = "myorg/myrepo" then some [] else none
    Postsubmits := fun _ => none
    inRepoConfig := { Enabled := none } }

/-- A config whose override map stores false for "myorg/myrepo". -/
def cfgOverrideFalse : Config :=
  { Presubmits := fun _ => none
    Postsubmits := fun _ => none
    inRepoConfig :=
      { Enabled := some (fun n => if n = "myorg/myrepo" then some false else none) } }

/-- Trigger environment whose deadline is already past and whose config
matches immediately. -/
def tenvPast : TriggerEnv :=
  { fetch := fun _ => .ok cfgMatch, now := fun _ => 5, endTime := 0,
    cmName := "config", ns := "jx", fullName := "myorg/myrepo", durStr := "0s" }

/-- Trigger environment whose deadline is already past and whose config never
matches. -/
def tenvNoMatch : TriggerEnv :=
  { fetch := fun _ => .ok cfgNone, now := fun _ => 5, endTime := 0,
    cmName := "config", ns := "jx", fullName := "myorg/myrepo", durStr := "0s" }

/-- Trigger environment whose config fetch always errors. -/
def tenvErr : TriggerEnv :=
  { fetch := fun _ => .error "boom", now := fun _ => 0, endTime := 10,
    cmName := "config", ns := "jx", fullName := "myorg/myrepo", durStr := "20m0s" }

/-- Trigger environment that matches on the first poll with a live deadline. -/
def tenvOk : TriggerEnv :=
  { fetch := fun _ => .ok cfgMatch, now := fun _ => 0, endTime := 10,
    cmName := "config", ns := "jx", fullName := "myorg/myrepo", durStr := "20m0s" }

/-- A SourceRepository whose webhook status annotation is "true". -/
def srTrue : SourceRepo :=
  { name := "myorg-myrepo", url := "https://x", anns := fun k =>
      if k = "webhook.jenkins-x.io" then some "true" else none }

/-- Webhook environment whose deadline is already past and whose resource
reports success immediately. -/
def wenvTrue : WebhookEnv :=
  { fetch := fun _ => .found srTrue, now := fun _ => 5, endTime := 0,
    srName := "myorg-myrepo", ns := "jx", fullName := "myorg/myrepo", durStr := "0s" }

/-- Webhook environment whose deadline is already past and whose resource
never exists. -/
def wenvNF : WebhookEnv :=
  { fetch := fun _ => .notFound, now := fun _ => 5, endTime := 0,
    srName := "myorg-myrepo", ns := "jx", fullName := "myorg/myrepo", durStr := "0s" }

/-- A SourceRepository with an err-prefixed status and error detail "A". -/
def srErrA : SourceRepo :=
  { name := "n", url := "u", anns := fun k =>
      if k = "webhook.jenkins-x.io" then some "err: oops"
      else if k = "webhook.jenkins-x.io/error" then some "A" else none }

/-- Same status value as `srErrA` but with error detail "B". -/
def srErrB : SourceRepo :=
  { name := "n", url := "u", anns := fun k =>
      if k = "webhook.jenkins-x.io" then some "err: oops"
      else if k = "webhook.jenkins-x.io/error" then some "B" else none }

/-- Webhook environment where the status stays "err: oops" while the error
detail changes from "A" (poll 0) to "B" (later polls); the deadline passes at
poll 2. -/
def wenvDetailChange : WebhookEnv :=
  { fetch := fun i => if i = 0 then .found srErrA else .found srErrB,
    now := fun i => i, endTime := 1,
    srName := "n", ns := "jx", fullName := "o/r", durStr := "2s" }

/-- Loop locals after poll 0 of `wenvDetailChange`. -/
def stAfterA : WebhookState :=
  { lastValue := "err: oops", found := true, lastFailMessage := "A", logWaiting := true }

/-- Webhook environment that reports an err status forever with a deadline
that never passes. -/
def wenvErrForever : WebhookEnv :=
  { fetch := fun _ => .found srErrA, now := fun _ => 0, endTime := 10,
    srName := "n", ns := "jx", fullName := "o/r", durStr := "20m0s" }

/-- Webhook environment whose resource is absent with a live deadline. -/
def wenvNFLive : WebhookEnv :=
  { fetch := fun _ => .notFound, now := fun _ => 0, endTime := 10,
    srName := "myorg-myrepo", ns := "jx", fullName := "myorg/myrepo", durStr := "20m0s" }

/-- Webhook environment whose fetch always fails with a non-not-found error. -/
def wenvFerr : WebhookEnv :=
  { fetch := fun _ => .fetchError "boom", now := fun _ => 0, endTime := 10,
    srName := "myorg-myrepo", ns := "jx", fullName := "myorg/myrepo", durStr := "20m0s" }

/-- Trigger environment that misses on poll 0 and matches on poll 1, with a
live deadline. -/
def tenvRetry : TriggerEnv :=
  { fetch := fun i => if i = 0 then .ok cfgNone else .ok cfgMatch,
    now := fun i => i, endTime := 5,
    cmName := "config", ns := "jx", fullName := "myorg/myrepo", durStr := "20m0s" }

/-- Webhook environment absent on poll 0 and successful on poll 1, with a
live deadline. -/
def wenvRetry : WebhookEnv :=
  { fetch := fun i => if i = 0 then .notFound else .found srTrue,
    now := fun i => i, endTime := 5,
    srName := "myorg-myrepo", ns := "jx", fullName := "myorg/myrepo", durStr := "20m0s" }

/-- Loop locals with the waiting line already logged. -/
def stWaited : WebhookState :=
  { lastValue := "", found := false, lastFailMessage := "", logWaiting := true }

/-- Loop locals after observing a "pending" status, no failure yet. -/
def stPending : WebhookState :=
  { lastValue := "pending", found := true, lastFailMessage := "", logWaiting := false }

/-- Loop locals after observing a "pending" status with failure "A" tracked. -/
def stPendingA : WebhookState :=
  { lastValue := "pending", found := true, lastFailMessage := "A", logWaiting := false }

/-! Theorems. -/

/-- Claim C1: for every trigger configuration and fully-qualified repository
name, `containsRepositoryTrigger` equals the spec's three-step reference
lookup: postsubmit-map membership wins, else an existing override entry is
returned verbatim (a stored false yields false), else false. -/
theorem containsRepositoryTrigger_eq_referenceLookup (cfg : Config) (fullName : String) :
    containsRepositoryTrigger cfg fullName = referenceTriggerLookup cfg fullName := by
  unfold containsRepositoryTrigger referenceTriggerLookup overrideEntry
  cases hp : cfg.Postsubmits fullName with
  | some v => simp
  | none =>
    cases he : cfg.inRepoConfig.Enabled with
    | none => simp
    | some m =>
      cases hm : m fullName with
      | none => simp
      | some b => simp

/-- Claim C10: a repository present only in the presubmit map — absent from
the postsubmit map and from the override map — yields no trigger match. -/
theorem presubmitOnly_no_trigger (cfg : Config) (fullName : String)
    (hpre : (cfg.Presubmits fullName).isSome = true)
    (hpost : cfg.Postsubmits fullName = none)
    (hover : overrideEntry cfg fullName = none) :
    containsRepositoryTrigger cfg fullName = false := by
  unfold containsRepositoryTrigger
  rw [hpost]
  unfold overrideEntry at hover
  cases he : cfg.inRepoConfig.Enabled with
  | none => simp
  | some m =>
    rw [he] at hover
    simp at hover
    simp [hover]

/-- Witness for C10 at a concrete presubmit-only config. -/
theorem presubmitOnly_no_trigger_witness :
    (cfgPresubmitOnly.Presubmits "myorg/myrepo").isSome = true ∧
    containsRepositoryTrigger cfgPresubmitOnly "myorg/myrepo" = false :=
  ⟨by decide,
   presubmitOnly_no_trigger cfgPresubmitOnly "myorg/myrepo" (by decide) rfl rfl⟩

/-- Claim C6: a config-fetch error on any iteration of the trigger phase
returns immediately with the wrapped error, independently of remaining fuel,
with no further polls and no further log output. -/
theorem triggerFetchError_immediate (env : TriggerEnv) (fuel i : Nat)
    (lw : Bool) (logs : List LogEvent) (e : String)
    (hf : env.fetch i = .error e) :
    runTrigger env (fuel + 1) i lw logs = some ((false, some (loadErrMsg e)), logs) := by
  simp [runTrigger, triggerStep, hf]

/-- Witness for C6 at a concrete always-failing fetch. -/
theorem triggerFetchError_immediate_witness :
    tenvErr.fetch 0 = .error "boom" ∧
    runTrigger tenvErr 4 0 false [] = some ((false, some (loadErrMsg "boom")), []) :=
  ⟨rfl, triggerFetchError_immediate tenvErr 3 0 false [] "boom" rfl⟩

/-- Claim C3: in both poll phases the condition check of an iteration comes
before the deadline comparison: a first check that already matches returns
success whatever the clock says, and with an expired deadline exactly one
check is still performed before the timeout error is returned. -/
theorem condition_checked_before_deadline :
    (∀ (env : TriggerEnv) (fuel i : Nat) (lw : Bool) (logs : List LogEvent) (cfg : Config),
      env.fetch i = .ok cfg → containsRepositoryTrigger cfg env.fullName = true →
      runTrigger env (fuel + 1) i lw logs = some ((true, none), logs)) ∧
    (∀ (env : WebhookEnv) (fuel i : Nat) (logs : List LogEvent) (sr : SourceRepo),
      env.fetch i = .found sr → annValue sr = "true" →
      runWebhook env (fuel + 1) i initWebhookState logs =
        some (.success,
          logs ++ [LogEvent.foundRepo sr.name sr.url, LogEvent.statusChange "true"])) ∧
    (∀ (env : TriggerEnv) (fuel i : Nat) (lw : Bool) (logs : List LogEvent) (cfg : Config),
      env.fetch i = .ok cfg → containsRepositoryTrigger cfg env.fullName = false →
      env.endTime < env.now i →
      runTrigger env (fuel + 1) i lw logs =
        some ((false, some (timeoutMsg env.cmName env.ns env.fullName env.durStr)), logs)) ∧
    (∀ (env : WebhookEnv) (fuel i : Nat) (st : WebhookState) (logs : List LogEvent),
      env.fetch i = .notFound → env.endTime < env.now i →
      runWebhook env (fuel + 1) i st logs =
        some (.timeout (timeoutMsg env.srName env.ns env.fullName env.durStr), logs)) := by
  refine ⟨?_, ?_, ?_, ?_⟩
  · intro env fuel i lw logs cfg hf hm
    simp [runTrigger, triggerStep, hf, hm]
  · intro env fuel i logs sr hf hv
    simp [runWebhook, webhookStep, hf, processSR, hv, initWebhookState]
  · intro env fuel i lw logs cfg hf hm hd
    simp [runTrigger, triggerStep, hf, hm, hd]
  · intro env fuel i st logs hf hd
    simp [runWebhook, webhookStep, hf, afterDeadline, hd]

/-- Witness for C3: all four parts at concrete expired-deadline environments. -/
theorem condition_checked_before_deadline_witness :
    runTrigger tenvPast 1 0 false [] = some ((true, none), []) ∧
    runWebhook wenvTrue 1 0 initWebhookState [] =
      some (.success, [LogEvent.foundRepo "myorg-myrepo" "https://x",
        LogEvent.statusChange "true"]) ∧
    runTrigger tenvNoMatch 1 0 false [] =
      some ((false, some (timeoutMsg "config" "jx" "myorg/myrepo" "0s")), []) ∧
    runWebhook wenvNF 1 0 initWebhookState [] =
      some (.timeout (timeoutMsg "myorg-myrepo" "jx" "myorg/myrepo" "0s"), []) :=
  ⟨condition_checked_before_deadline.1 tenvPast 0 0 false [] cfgMatch rfl (by decide),
   condition_checked_before_deadline.2.1 wenvTrue 0 0 [] srTrue rfl (by decide),
   condition_checked_before_deadline.2.2.1 tenvNoMatch 0 0 false [] cfgNone rfl
     (by decide) (by decide),
   condition_checked_before_deadline.2.2.2 wenvNF 0 0 initWebhookState [] rfl (by decide)⟩

/-- An err-prefixed status value is not the empty string. -/
theorem hasPre_err_ne_empty {s : String} (h : hasPre "err" (strToLower s) = true) :
    s ≠ "" := by
  intro heq
  subst heq
  exact absurd h (by decide)

/-- An err-prefixed status value is not the literal "true". -/
theorem hasPre_err_ne_true {s : String} (h : hasPre "err" (strToLower s) = true) :
    s ≠ "true" := by
  intro heq
  subst heq
  exact absurd h (by decide)

/-- Processing a resource whose status is not "true" never returns success. -/
theorem processSR_no_success (sr : SourceRepo) (st : WebhookState)
    (hnt : annValue sr ≠ "true") :
    ∃ st' l, processSR sr st = (.next st', l) := by
  simp only [processSR]
  by_cases h1 : annValue sr = ""
  · rw [if_pos h1]
    exact ⟨_, _, rfl⟩
  rw [if_neg h1]
  by_cases h2 : annValue sr = st.lastValue
  · rw [if_pos h2]
    exact ⟨_, _, rfl⟩
  rw [if_neg h2, if_neg hnt]
  by_cases h3 : hasPre "err" (strToLower (annValue sr)) = true
  · rw [if_pos h3]
    by_cases h4 : annErr sr ≠ "" ∧ annErr sr ≠ st.lastFailMessage
    · rw [if_pos h4]
      exact ⟨_, _, rfl⟩
    · rw [if_neg h4]
      exact ⟨_, _, rfl⟩
  · rw [if_neg h3]
    exact ⟨_, _, rfl⟩

/-- Processing returns success only on the literal status "true". -/
theorem processSR_success_eq_true (sr : SourceRepo) (st : WebhookState)
    (l : List LogEvent) (h : processSR sr st = (.success, l)) :
    annValue sr = "true" := by
  by_cases hv : annValue sr = "true"
  · exact hv
  · obtain ⟨st', l', hp⟩ := processSR_no_success sr st hv
    rw [hp] at h
    simp at h

/-- The deadline tail returns `done` only past the deadline, and then returns
the shared timeout message with the logs it was handed. -/
theorem afterDeadline_done (env : WebhookEnv) (i : Nat) (st : WebhookState)
    (logs : List LogEvent) (out : WebhookOutcome) (l : List LogEvent)
    (h : afterDeadline env i st logs = (.done out, l)) :
    out = .timeout (timeoutMsg env.srName env.ns env.fullName env.durStr) ∧
    l = logs ∧ env.endTime < env.now i := by
  unfold afterDeadline at h
  by_cases hd : env.endTime < env.now i
  · rw [if_pos hd] at h
    simp only [Prod.mk.injEq, WebhookStepRes.done.injEq] at h
    exact ⟨h.1.symm, h.2.symm, hd⟩
  · rw [if_neg hd] at h
    by_cases hl : st.logWaiting = true
    · rw [if_pos hl] at h
      simp at h
    · rw [if_neg hl] at h
      simp at h

/-- A webhook iteration that observes an err-prefixed status with a live
deadline falls through to the next iteration. -/
theorem webhookStep_cont_of_err (env : WebhookEnv) (i : Nat) (st : WebhookState)
    (sr : SourceRepo) (hf : env.fetch i = .found sr)
    (herr : hasPre "err" (strToLower (annValue sr)) = true)
    (hd : env.now i ≤ env.endTime) :
    ∃ st' l, webhookStep env i st = (.next st', l) := by
  obtain ⟨st1, l1, hp⟩ := processSR_no_success sr st (hasPre_err_ne_true herr)
  simp only [webhookStep, hf, hp]
  unfold afterDeadline
  rw [if_neg (Nat.not_lt.mpr hd)]
  split
  · exact ⟨_, _, rfl⟩
  · exact ⟨_, _, rfl⟩

/-- A webhook iteration returns success only having observed status "true". -/
theorem webhookStep_success_observed_true (env : WebhookEnv) (i : Nat)
    (st : WebhookState) (l : List LogEvent)
    (h : webhookStep env i st = (.done .success, l)) :
    ∃ sr, env.fetch i = .found sr ∧ annValue sr = "true" := by
  cases hf : env.fetch i with
  | fetchError e => simp [webhookStep, hf] at h
  | notFound =>
    simp only [webhookStep, hf] at h
    have := (afterDeadline_done env i st [] .success l h).1
    simp at this
  | found sr =>
    simp only [webhookStep, hf] at h
    refine ⟨sr, rfl, ?_⟩
    cases hp : processSR sr st with
    | mk r l' =>
      rw [hp] at h
      cases r with
      | success => exact processSR_success_eq_true sr st l' hp
      | next st' =>
        have := (afterDeadline_done env i st' l' .success l h).1
        simp at this

/-- A webhook iteration returns the timeout error only past the deadline. -/
theorem webhookStep_timeout_deadline (env : WebhookEnv) (i : Nat)
    (st : WebhookState) (m : String) (l : List LogEvent)
    (h : webhookStep env i st = (.done (.timeout m), l)) :
    env.endTime < env.now i := by
  cases hf : env.fetch i with
  | fetchError e => simp [webhookStep, hf] at h
  | notFound =>
    simp only [webhookStep, hf] at h
    exact (afterDeadline_done env i st [] (.timeout m) l h).2.2
  | found sr =>
    simp only [webhookStep, hf] at h
    cases hp : processSR sr st with
    | mk r l' =>
      rw [hp] at h
      cases r with
      | success => simp_all
      | next st' => exact (afterDeadline_done env i st' l' (.timeout m) l h).2.2

/-- Claim C2: an err-prefixed webhook status never ends the wait — when every
poll observes an err-prefixed status and the deadline never passes, the loop
runs forever; the loop returns success only upon observing the status literal
"true" and returns the timeout error only once the deadline has passed. -/
theorem webhook_err_never_terminates :
    (∀ (env : WebhookEnv) (fuel i : Nat) (st : WebhookState) (logs : List LogEvent),
      (∀ j, ∃ sr, env.fetch j = .found sr ∧ hasPre "err" (strToLower (annValue sr)) = true) →
      (∀ j, env.now j ≤ env.endTime) →
      runWebhook env fuel i st logs = none) ∧
    (∀ (env : WebhookEnv) (i : Nat) (st : WebhookState) (l : List LogEvent),
      webhookStep env i st = (.done .success, l) →
      ∃ sr, env.fetch i = .found sr ∧ annValue sr = "true") ∧
    (∀ (env : WebhookEnv) (i : Nat) (st : WebhookState) (m : String) (l : List LogEvent),
      webhookStep env i st = (.done (.timeout m), l) →
      env.endTime < env.now i) := by
  refine ⟨?_, webhookStep_success_observed_true, webhookStep_timeout_deadline⟩
  intro env fuel
  induction fuel with
  | zero => intro i st logs _ _; rfl
  | succ n ih =>
    intro i st logs herr hd
    obtain ⟨sr, hf, he⟩ := herr i
    obtain ⟨st', l, hstep⟩ := webhookStep_cont_of_err env i st sr hf he (hd i)
    simp only [runWebhook, hstep]
    exact ih (i + 1) st' (logs ++ l) herr hd

/-- Witness for C2 at concrete environments. -/
theorem webhook_err_never_terminates_witness :
    runWebhook wenvErrForever 5 0 initWebhookState [] = none ∧
    (∃ sr, wenvTrue.fetch 0 = .found sr ∧ annValue sr = "true") ∧
    wenvNF.endTime < wenvNF.now 0 :=
  ⟨webhook_err_never_terminates.1 wenvErrForever 5 0 initWebhookState []
      (fun _ => ⟨srErrA, rfl, by decide⟩) (fun _ => Nat.zero_le _),
   webhook_err_never_terminates.2.1 wenvTrue 0 initWebhookState
      [LogEvent.foundRepo "myorg-myrepo" "https://x", LogEvent.statusChange "true"]
      (by decide),
   webhook_err_never_terminates.2.2 wenvNF 0 initWebhookState
      (timeoutMsg "myorg-myrepo" "jx" "myorg/myrepo" "0s") [] (by decide)⟩

/-- Claim C7: in the webhook phase a not-found fetch is transient — the loop
falls through to the next poll while the deadline is live — whereas any other
fetch error ends the phase at once with the wrapped error and no extra logs. -/
theorem webhook_notFound_transient :
    (∀ (env : WebhookEnv) (fuel i : Nat) (st : WebhookState) (logs : List LogEvent),
      env.fetch i = .notFound → env.now i ≤ env.endTime →
      ∃ st' l, webhookStep env i st = (.next st', l) ∧
        runWebhook env (fuel + 1) i st logs = runWebhook env fuel (i + 1) st' (logs ++ l)) ∧
    (∀ (env : WebhookEnv) (fuel i : Nat) (st : WebhookState) (logs : List LogEvent)
      (e : String),
      env.fetch i = .fetchError e →
      runWebhook env (fuel + 1) i st logs =
        some (.fetchErr (srFetchErrMsg env.srName env.ns e), logs)) := by
  constructor
  · intro env fuel i st logs hf hd
    have hstep : ∃ st' l, webhookStep env i st = (.next st', l) := by
      simp only [webhookStep, hf]
      unfold afterDeadline
      rw [if_neg (Nat.not_lt.mpr hd)]
      split
      · exact ⟨_, _, rfl⟩
      · exact ⟨_, _, rfl⟩
    obtain ⟨st', l, hstep⟩ := hstep
    exact ⟨st', l, hstep, by simp only [runWebhook, hstep]⟩
  · intro env fuel i st logs e hf
    simp [runWebhook, webhookStep, hf]

/-- Witness for C7 at concrete environments. -/
theorem webhook_notFound_transient_witness :
    (∃ st' l, webhookStep wenvNFLive 0 initWebhookState = (.next st', l) ∧
      runWebhook wenvNFLive 1 0 initWebhookState [] =
        runWebhook wenvNFLive 0 1 st' ([] ++ l)) ∧
    runWebhook wenvFerr 4 0 initWebhookState [] =
      some (.fetchErr (srFetchErrMsg "myorg-myrepo" "jx" "boom"), []) :=
  ⟨webhook_notFound_transient.1 wenvNFLive 0 0 initWebhookState [] rfl (by decide),
   webhook_notFound_transient.2 wenvFerr 3 0 initWebhookState [] "boom" rfl⟩

/-- A `done` result of a trigger iteration with a nil error carries true. -/
theorem triggerStep_done_nil_true (env : TriggerEnv) (i : Nat) (lw : Bool)
    (b : Bool) (l : List LogEvent)
    (h : triggerStep env i lw = (.done (b, none), l)) : b = true := by
  cases hf : env.fetch i with
  | error e => simp [triggerStep, hf] at h
  | ok cfg =>
    simp only [triggerStep, hf] at h
    by_cases hm : containsRepositoryTrigger cfg env.fullName = true
    · rw [if_pos hm] at h
      simp only [Prod.mk.injEq, TriggerStepRes.done.injEq] at h
      exact h.1.1 ▸ hm
    · rw [if_neg hm] at h
      by_cases hd : env.endTime < env.now i
      · rw [if_pos hd] at h
        simp at h
      · rw [if_neg hd] at h
        by_cases hl : lw = true
        · rw [if_pos hl] at h
          simp at h
        · rw [if_neg hl] at h
          simp at h

/-- The trigger loop returns a nil error only together with true. -/
theorem runTrigger_nilError_true (env : TriggerEnv) :
    ∀ (fuel i : Nat) (lw : Bool) (logs : List LogEvent) (b : Bool)
      (logs' : List LogEvent),
    runTrigger env fuel i lw logs = some ((b, none), logs') → b = true := by
  intro fuel
  induction fuel with
  | zero => intro i lw logs b logs' h; cases h
  | succ n ih =>
    intro i lw logs b logs' h
    simp only [runTrigger] at h
    cases hs : triggerStep env i lw with
    | mk r l =>
      rw [hs] at h
      cases r with
      | done res =>
        simp only at h
        have hres : res = (b, none) := by
          have := Option.some.inj h
          exact congrArg Prod.fst this
        exact triggerStep_done_nil_true env i lw b l (hres ▸ hs)
      | next =>
        simp only at h
        exact ih (i + 1) true (logs ++ l) b logs' h

/-- Claim C9: the trigger-phase wait never returns the pair (false, nil), so
the orchestrator branch reporting "repository is not yet setup" is
unreachable. -/
theorem trigger_never_false_nil :
    (∀ (env : TriggerEnv) (fuel i : Nat) (lw : Bool) (logs logs' : List LogEvent)
      (b : Bool),
      runTrigger env fuel i lw logs = some ((b, none), logs') → b = true) ∧
    (∀ (tenv : TriggerEnv) (wenv : WebhookEnv) (fullName : String) (fuel : Nat)
      (fn : String),
      runOrchestrator tenv wenv fullName fuel ≠ some (.notSetup fn)) := by
  constructor
  · intro env fuel i lw logs logs' b h
    exact runTrigger_nilError_true env fuel i lw logs b logs' h
  · intro tenv wenv fullName fuel fn
    unfold runOrchestrator
    cases hrt : runTrigger tenv fuel 0 false [] with
    | none => simp
    | some r =>
      obtain ⟨⟨b, oe⟩, lg⟩ := r
      cases oe with
      | some e => simp
      | none =>
        have hb : b = true := runTrigger_nilError_true tenv fuel 0 false [] b lg hrt
        subst hb
        simp only [if_true]
        cases hw : runWebhook wenv fuel 0 initWebhookState [] with
        | none => simp
        | some w =>
          obtain ⟨out, lg2⟩ := w
          cases out <;> simp

/-- Witness for C9 at concrete environments. -/
theorem trigger_never_false_nil_witness :
    (true = true) ∧
    runOrchestrator tenvOk wenvTrue "myorg/myrepo" 2 ≠
      some (.notSetup "myorg/myrepo") :=
  ⟨trigger_never_false_nil.1 tenvOk 1 0 false [] [] true (by decide),
   trigger_never_false_nil.2 tenvOk wenvTrue "myorg/myrepo" 2 "myorg/myrepo"⟩

/-- countWaiting distributes over append. -/
theorem countWaiting_append (a b : List LogEvent) :
    countWaiting (a ++ b) = countWaiting a + countWaiting b := by
  simp [countWaiting, List.filter_append]

/-- A returning trigger iteration emits no log events. -/
theorem triggerStep_done_logs (env : TriggerEnv) (i : Nat) (lw : Bool)
    (res : Bool × Option String) (l : List LogEvent)
    (h : triggerStep env i lw = (.done res, l)) : l = [] := by
  cases hf : env.fetch i with
  | error e =>
    simp only [triggerStep, hf] at h
    exact ((Prod.mk.injEq _ _ _ _).mp h).2.symm
  | ok cfg =>
    simp only [triggerStep, hf] at h
    by_cases hm : containsRepositoryTrigger cfg env.fullName = true
    · rw [if_pos hm] at h
      exact ((Prod.mk.injEq _ _ _ _).mp h).2.symm
    · rw [if_neg hm] at h
      by_cases hd : env.endTime < env.now i
      · rw [if_pos hd] at h
        exact ((Prod.mk.injEq _ _ _ _).mp h).2.symm
      · rw [if_neg hd] at h
        by_cases hl : lw = true
        · rw [if_pos hl] at h
          simp at h
        · rw [if_neg hl] at h
          simp at h

/-- A retrying trigger iteration emits the waiting line exactly when the flag
was not yet set. -/
theorem triggerStep_next_logs (env : TriggerEnv) (i : Nat) (lw : Bool)
    (l : List LogEvent) (h : triggerStep env i lw = (.next, l)) :
    l = (if lw = true then [] else [LogEvent.waiting]) := by
  cases hf : env.fetch i with
  | error e => simp [triggerStep, hf] at h
  | ok cfg =>
    simp only [triggerStep, hf] at h
    by_cases hm : containsRepositoryTrigger cfg env.fullName = true
    · rw [if_pos hm] at h
      simp at h
    · rw [if_neg hm] at h
      by_cases hd : env.endTime < env.now i
      · rw [if_pos hd] at h
        simp at h
      · rw [if_neg hd] at h
        by_cases hl : lw = true
        · rw [if_pos hl] at h
          rw [if_pos hl]
          exact ((Prod.mk.injEq _ _ _ _).mp h).2.symm
        · rw [if_neg hl] at h
          rw [if_neg hl]
          exact ((Prod.mk.injEq _ _ _ _).mp h).2.symm

/-- Once the trigger loop's waiting flag is set, no run emits another waiting
line. -/
theorem runTrigger_waitlog_true (env : TriggerEnv) :
    ∀ (fuel i : Nat) (logs : List LogEvent) (r : (Bool × Option String) × List LogEvent),
    runTrigger env fuel i true logs = some r → countWaiting r.2 = countWaiting logs := by
  intro fuel
  induction fuel with
  | zero => intro i logs r h; cases h
  | succ n ih =>
    intro i logs r h
    simp only [runTrigger] at h
    cases hs : triggerStep env i true with
    | mk sr l =>
      rw [hs] at h
      cases sr with
      | done res =>
        have hl : l = [] := triggerStep_done_logs env i true res l hs
        subst hl
        cases h
        simp
      | next =>
        have hl := triggerStep_next_logs env i true l hs
        simp only [if_pos rfl] at hl
        subst hl
        have := ih (i + 1) (logs ++ []) r h
        simpa using this

/-- A trigger run entered with the waiting flag clear emits one waiting line
when its first iteration retries, and none when it returns at once. -/
theorem runTrigger_waitlog_false (env : TriggerEnv) (fuel i : Nat)
    (logs : List LogEvent) (r : (Bool × Option String) × List LogEvent)
    (h : runTrigger env fuel i false logs = some r) :
    countWaiting r.2 = countWaiting logs +
      (match (triggerStep env i false).1 with
       | .done _ => 0
       | .next => 1) := by
  cases fuel with
  | zero => cases h
  | succ n =>
    simp only [runTrigger] at h
    cases hs : triggerStep env i false with
    | mk sr l =>
      rw [hs] at h
      cases sr with
      | done res =>
        have hl : l = [] := triggerStep_done_logs env i false res l hs
        subst hl
        cases h
        simp [hs]
      | next =>
        have hl := triggerStep_next_logs env i false l hs
        simp only [if_neg (Bool.false_ne_true)] at hl
        subst hl
        have := runTrigger_waitlog_true env n (i + 1)
          (logs ++ [LogEvent.waiting]) r h
        rw [this, countWaiting_append]
        simp [countWaiting, isWaiting]

/-- Processing a found resource never emits a waiting line. -/
theorem processSR_no_waiting (sr : SourceRepo) (st : WebhookState) :
    countWaiting (processSR sr st).2 = 0 := by
  have hbase : countWaiting
      (if st.found = true then [] else [LogEvent.foundRepo sr.name sr.url]) = 0 := by
    by_cases hfd : st.found = true <;> simp [hfd, countWaiting, isWaiting]
  simp only [processSR]
  by_cases h1 : annValue sr = ""
  · rw [if_pos h1]
    exact hbase
  rw [if_neg h1]
  by_cases h2 : annValue sr = st.lastValue
  · rw [if_pos h2]
    exact hbase
  rw [if_neg h2]
  by_cases h3 : annValue sr = "true"
  · rw [if_pos h3]
    simp [countWaiting_append, hbase, countWaiting, isWaiting]
  rw [if_neg h3]
  by_cases h4 : hasPre "err" (strToLower (annValue sr)) = true
  · rw [if_pos h4]
    by_cases h5 : annErr sr ≠ "" ∧ annErr sr ≠ st.lastFailMessage
    · rw [if_pos h5]
      simp [countWaiting_append, hbase, countWaiting, isWaiting]
    · rw [if_neg h5]
      simp [countWaiting_append, hbase, countWaiting, isWaiting]
  · rw [if_neg h4]
    simp [countWaiting_append, hbase, countWaiting, isWaiting]

/-- Processing a found resource does not touch the waiting flag. -/
theorem processSR_next_logWaiting (sr : SourceRepo) (st st' : WebhookState)
    (l : List LogEvent) (h : processSR sr st = (.next st', l)) :
    st'.logWaiting = st.logWaiting := by
  simp only [processSR] at h
  by_cases h1 : annValue sr = ""
  · rw [if_pos h1] at h
    simp only [Prod.mk.injEq, ProcessRes.next.injEq] at h
    rw [← h.1]
  · rw [if_neg h1] at h
    by_cases h2 : annValue sr = st.lastValue
    · rw [if_pos h2] at h
      simp only [Prod.mk.injEq, ProcessRes.next.injEq] at h
      rw [← h.1]
    · rw [if_neg h2] at h
      by_cases h3 : annValue sr = "true"
      · rw [if_pos h3] at h
        simp at h
      · rw [if_neg h3] at h
        by_cases h4 : hasPre "err" (strToLower (annValue sr)) = true
        · rw [if_pos h4] at h
          by_cases h5 : annErr sr ≠ "" ∧ annErr sr ≠ st.lastFailMessage
          · rw [if_pos h5] at h
            simp only [Prod.mk.injEq, ProcessRes.next.injEq] at h
            rw [← h.1]
          · rw [if_neg h5] at h
            simp only [Prod.mk.injEq, ProcessRes.next.injEq] at h
            rw [← h.1]
        · rw [if_neg h4] at h
          simp only [Prod.mk.injEq, ProcessRes.next.injEq] at h
          rw [← h.1]

/-- A falling-through deadline tail sets the waiting flag and emits the
waiting line exactly when the flag was clear. -/
theorem afterDeadline_next (env : WebhookEnv) (i : Nat) (st : WebhookState)
    (logs : List LogEvent) (st' : WebhookState) (l : List LogEvent)
    (h : afterDeadline env i st logs = (.next st', l)) :
    st'.logWaiting = true ∧
    countWaiting l = countWaiting logs + (if st.logWaiting = true then 0 else 1) := by
  unfold afterDeadline at h
  by_cases hd : env.endTime < env.now i
  · rw [if_pos hd] at h
    simp at h
  · rw [if_neg hd] at h
    by_cases hl : st.logWaiting = true
    · rw [if_pos hl] at h
      simp only [Prod.mk.injEq, WebhookStepRes.next.injEq] at h
      rw [← h.1, ← h.2]
      simp [hl]
    · rw [if_neg hl] at h
      simp only [Prod.mk.injEq, WebhookStepRes.next.injEq] at h
      rw [← h.1, ← h.2]
      simp [hl, countWaiting_append, countWaiting, isWaiting]

/-- A returning webhook iteration emits no waiting line. -/
theorem webhookStep_done_no_waiting (env : WebhookEnv) (i : Nat)
    (st : WebhookState) (out : WebhookOutcome) (l : List LogEvent)
    (h : webhookStep env i st = (.done out, l)) : countWaiting l = 0 := by
  cases hf : env.fetch i with
  | fetchError e =>
    simp only [webhookStep, hf] at h
    rw [← ((Prod.mk.injEq _ _ _ _).mp h).2]
    rfl
  | notFound =>
    simp only [webhookStep, hf] at h
    rw [(afterDeadline_done env i st [] out l h).2.1]
    rfl
  | found sr =>
    simp only [webhookStep, hf] at h
    have hnw := processSR_no_waiting sr st
    cases hp : processSR sr st with
    | mk r l' =>
      rw [hp] at h
      rw [hp] at hnw
      cases r with
      | success =>
        rw [← ((Prod.mk.injEq _ _ _ _).mp h).2]
        exact hnw
      | next st' =>
        rw [(afterDeadline_done env i st' l' out l h).2.1]
        exact hnw

/-- A falling-through webhook iteration sets the waiting flag and emits the
waiting line exactly when the flag was clear. -/
theorem webhookStep_next_waiting (env : WebhookEnv) (i : Nat)
    (st st' : WebhookState) (l : List LogEvent)
    (h : webhookStep env i st = (.next st', l)) :
    st'.logWaiting = true ∧
    countWaiting l = (if st.logWaiting = true then 0 else 1) := by
  cases hf : env.fetch i with
  | fetchError e => simp [webhookStep, hf] at h
  | notFound =>
    simp only [webhookStep, hf] at h
    have := afterDeadline_next env i st [] st' l h
    simpa [countWaiting] using this
  | found sr =>
    simp only [webhookStep, hf] at h
    have hnw := processSR_no_waiting sr st
    cases hp : processSR sr st with
    | mk r l' =>
      rw [hp] at h
      rw [hp] at hnw
      cases r with
      | success => simp at h
      | next st1 =>
        have had := afterDeadline_next env i st1 l' st' l h
        have hlw := processSR_next_logWaiting sr st st1 l' hp
        refine ⟨had.1, ?_⟩
        rw [had.2, hnw, hlw]
        simp

/-- Once the webhook loop's waiting flag is set, no run emits another waiting
line. -/
theorem runWebhook_waitlog_true (env : WebhookEnv) :
    ∀ (fuel i : Nat) (st : WebhookState) (logs : List LogEvent)
      (r : WebhookOutcome × List LogEvent),
    st.logWaiting = true → runWebhook env fuel i st logs = some r →
    countWaiting r.2 = countWaiting logs := by
  intro fuel
  induction fuel with
  | zero => intro i st logs r _ h; cases h
  | succ n ih =>
    intro i st logs r hlw h
    simp only [runWebhook] at h
    cases hs : webhookStep env i st with
    | mk sr l =>
      rw [hs] at h
      cases sr with
      | done out =>
        have hl := webhookStep_done_no_waiting env i st out l hs
        cases h
        simp [countWaiting_append, hl]
      | next st' =>
        have hw := webhookStep_next_waiting env i st st' l hs
        have := ih (i + 1) st' (logs ++ l) r hw.1 h
        rw [this, countWaiting_append, hw.2, if_pos hlw]
        simp

/-- A webhook run entered with the waiting flag clear emits one waiting line
when its first iteration retries, and none when it returns at once. -/
theorem runWebhook_waitlog_false (env : WebhookEnv) (fuel i : Nat)
    (st : WebhookState) (logs : List LogEvent)
    (r : WebhookOutcome × List LogEvent)
    (hlw : st.logWaiting = false)
    (h : runWebhook env fuel i st logs = some r) :
    countWaiting r.2 = countWaiting logs +
      (match (webhookStep env i st).1 with
       | .done _ => 0
       | .next _ => 1) := by
  cases fuel with
  | zero => cases h
  | succ n =>
    simp only [runWebhook] at h
    cases hs : webhookStep env i st with
    | mk sr l =>
      rw [hs] at h
      cases sr with
      | done out =>
        have hl := webhookStep_done_no_waiting env i st out l hs
        cases h
        simp [hs, countWaiting_append, hl]
      | next st' =>
        have hw := webhookStep_next_waiting env i st st' l hs
        have := runWebhook_waitlog_true env n (i + 1) st' (logs ++ l) r hw.1 h
        rw [this, countWaiting_append, hw.2, if_neg]
        simp [hlw]

/-- Claim C8: each poll phase emits its waiting line exactly once per run —
at the first iteration that retries — and a run whose first check already
returns emits none; once the flag is set no further waiting line appears. -/
theorem waiting_logged_exactly_once :
    (∀ (env : TriggerEnv) (fuel i : Nat) (logs : List LogEvent)
      (r : (Bool × Option String) × List LogEvent),
      runTrigger env fuel i true logs = some r →
      countWaiting r.2 = countWaiting logs) ∧
    (∀ (env : TriggerEnv) (fuel i : Nat) (logs : List LogEvent)
      (r : (Bool × Option String) × List LogEvent),
      runTrigger env fuel i false logs = some r →
      countWaiting r.2 = countWaiting logs +
        (match (triggerStep env i false).1 with
         | .done _ => 0
         | .next => 1)) ∧
    (∀ (env : WebhookEnv) (fuel i : Nat) (st : WebhookState)
      (logs : List LogEvent) (r : WebhookOutcome × List LogEvent),
      st.logWaiting = true → runWebhook env fuel i st logs = some r →
      countWaiting r.2 = countWaiting logs) ∧
    (∀ (env : WebhookEnv) (fuel i : Nat) (st : WebhookState)
      (logs : List LogEvent) (r : WebhookOutcome × List LogEvent),
      st.logWaiting = false → runWebhook env fuel i st logs = some r →
      countWaiting r.2 = countWaiting logs +
        (match (webhookStep env i st).1 with
         | .done _ => 0
         | .next _ => 1)) :=
  ⟨fun env fuel i logs r h => runTrigger_waitlog_true env fuel i logs r h,
   fun env fuel i logs r h => runTrigger_waitlog_false env fuel i logs r h,
   fun env fuel i st logs r hlw h => runWebhook_waitlog_true env fuel i st logs r hlw h,
   fun env fuel i st logs r hlw h => runWebhook_waitlog_false env fuel i st logs r hlw h⟩

/-- Witness for C8 at concrete runs: an immediately-successful first check
emits zero waiting lines; a single retry emits exactly one. -/
theorem waiting_logged_exactly_once_witness :
    countWaiting [LogEvent.waiting] = countWaiting [LogEvent.waiting] ∧
    countWaiting [LogEvent.waiting] = countWaiting [] +
      (match (triggerStep tenvRetry 0 false).1 with
       | .done _ => 0
       | .next => 1) ∧
    countWaiting [LogEvent.waiting, LogEvent.foundRepo "myorg-myrepo" "https://x",
      LogEvent.statusChange "true"] = countWaiting [LogEvent.waiting] ∧
    countWaiting [LogEvent.waiting, LogEvent.foundRepo "myorg-myrepo" "https://x",
      LogEvent.statusChange "true"] = countWaiting ([] : List LogEvent) +
      (match (webhookStep wenvRetry 0 initWebhookState).1 with
       | .done _ => 0
       | .next _ => 1) :=
  ⟨waiting_logged_exactly_once.1 tenvRetry 1 1 [LogEvent.waiting]
      ((true, none), [LogEvent.waiting]) (by decide),
   waiting_logged_exactly_once.2.1 tenvRetry 2 0 []
      ((true, none), [LogEvent.waiting]) (by decide),
   waiting_logged_exactly_once.2.2.1 wenvRetry 1 1 stWaited [LogEvent.waiting]
      (.success, [LogEvent.waiting, LogEvent.foundRepo "myorg-myrepo" "https://x",
        LogEvent.statusChange "true"]) (by decide) (by decide),
   waiting_logged_exactly_once.2.2.2 wenvRetry 2 0 initWebhookState []
      (.success, [LogEvent.waiting, LogEvent.foundRepo "myorg-myrepo" "https://x",
        LogEvent.statusChange "true"]) (by decide) (by decide)⟩

/-- Counterexample to claim C5: a poll with an err-prefixed status equal to
the last-seen value and a changed, non-empty error detail ("A" last tracked,
"B" now observed) leaves the tracked failure message at "A" and logs nothing,
and the full run warns "A" once but never "B". -/
theorem stale_status_skips_new_failure_detail :
    annValue srErrB = "err: oops" ∧
    hasPre "err" (strToLower (annValue srErrB)) = true ∧
    annErr srErrB = "B" ∧
    stAfterA.lastFailMessage = "A" ∧
    webhookStep wenvDetailChange 1 stAfterA = (.next stAfterA, []) ∧
    runWebhook wenvDetailChange 3 0 initWebhookState [] =
      some (.timeout (timeoutMsg "n" "jx" "o/r" "2s"),
        [LogEvent.foundRepo "n" "u", LogEvent.statusChange "err: oops",
         LogEvent.warnFailure "A", LogEvent.waiting]) ∧
    LogEvent.warnFailure "B" ∉
      [LogEvent.foundRepo "n" "u", LogEvent.statusChange "err: oops",
       LogEvent.warnFailure "A", LogEvent.waiting] :=
  ⟨rfl, by decide, rfl, rfl, by decide, by decide, by decide⟩

/-- Claim C5 amended: the failure detail is tracked and warned only on polls
where the status annotation value itself changes — on such a poll with an
err-prefixed value, a non-empty detail differing from the tracked one is
stored and warned exactly once, a repeated detail is not warned again, and a
poll whose status value equals the last-seen one ignores the detail entirely
even if it changed. -/
theorem failure_detail_tracked_only_on_status_change (sr : SourceRepo)
    (st : WebhookState)
    (hne : annValue sr ≠ "") (hch : annValue sr ≠ st.lastValue)
    (hnt : annValue sr ≠ "true")
    (herr : hasPre "err" (strToLower (annValue sr)) = true)
    (hfd : st.found = true) :
    (annErr sr ≠ "" → annErr sr ≠ st.lastFailMessage →
      processSR sr st =
        (.next { lastValue := annValue sr, found := true,
                 lastFailMessage := annErr sr, logWaiting := st.logWaiting },
         [LogEvent.statusChange (annValue sr), LogEvent.warnFailure (annErr sr)])) ∧
    (annErr sr = st.lastFailMessage →
      processSR sr st =
        (.next { lastValue := annValue sr, found := true,
                 lastFailMessage := st.lastFailMessage, logWaiting := st.logWaiting },
         [LogEvent.statusChange (annValue sr)])) ∧
    (∀ st2 : WebhookState, annValue sr = st2.lastValue → st2.found = true →
      processSR sr st2 = (.next st2, [])) := by
  refine ⟨?_, ?_, ?_⟩
  · intro hfe hfne
    simp only [processSR]
    rw [if_neg hne, if_pos hfd, if_neg hch, if_neg hnt, if_pos herr,
      if_pos ⟨hfe, hfne⟩]
    simp
  · intro hfeq
    simp only [processSR]
    rw [if_neg hne, if_pos hfd, if_neg hch, if_neg hnt, if_pos herr, if_neg]
    · simp [hfeq]
    · simp [hfeq]
  · intro st2 heq hfd2
    obtain ⟨lv, fd, lfm, lw⟩ := st2
    have hfd3 : fd = true := hfd2
    have heq2 : annValue sr = lv := heq
    subst hfd3
    simp only [processSR]
    rw [if_neg hne, if_pos heq2]
    simp

/-- Witness for the amended C5 at concrete polls. -/
theorem failure_detail_tracked_only_on_status_change_witness :
    processSR srErrA stPending =
      (.next { lastValue := "err: oops", found := true,
               lastFailMessage := "A", logWaiting := false },
       [LogEvent.statusChange "err: oops", LogEvent.warnFailure "A"]) ∧
    processSR srErrA stPendingA =
      (.next { lastValue := "err: oops", found := true,
               lastFailMessage := "A", logWaiting := false },
       [LogEvent.statusChange "err: oops"]) ∧
    processSR srErrA stAfterA = (.next stAfterA, []) :=
  ⟨(failure_detail_tracked_only_on_status_change srErrA stPending
      (by decide) (by decide) (by decide) (by decide) (by decide)).1
      (by decide) (by decide),
   (failure_detail_tracked_only_on_status_change srErrA stPendingA
      (by decide) (by decide) (by decide) (by decide) (by decide)).2.1
      (by decide),
   (failure_detail_tracked_only_on_status_change srErrA stPending
      (by decide) (by decide) (by decide) (by decide) (by decide)).2.2
      stAfterA (by decide) (by decide)⟩

/-- Claim C4 (code slip): when the webhook phase times out — here a zero wait
window with the resource never found — the returned error is built from the
trigger phase's format string: it speaks of a trigger in a ConfigMap (naming
the SourceRepository's name as the ConfigMap), carries the name, namespace
and duration, and never mentions the webhook phase. -/
theorem webhookTimeout_misnames_phase :
    runWebhook wenvNF 1 0 initWebhookState [] =
      some (.timeout (timeoutMsg "myorg-myrepo" "jx" "myorg/myrepo" "0s"), []) ∧
    strContains (timeoutMsg "myorg-myrepo" "jx" "myorg/myrepo" "0s") "webhook" = false ∧
    strContains (timeoutMsg "myorg-myrepo" "jx" "myorg/myrepo" "0s")
      "failed to find trigger in the lighthouse configuration in ConfigMap" = true ∧
    strContains (timeoutMsg "myorg-myrepo" "jx" "myorg/myrepo" "0s")
      "myorg-myrepo" = true ∧
    strContains (timeoutMsg "myorg-myrepo" "jx" "myorg/myrepo" "0s") "jx" = true ∧
    strContains (timeoutMsg "myorg-myrepo" "jx" "myorg/myrepo" "0s") "0s" = true :=
  ⟨by decide, by decide, by decide, by decide, by decide, by decide⟩

end JxWait
